import Mathlib

/-!
Verification of the fork-choice core of the lighthouse beacon-chain client.

The development shallowly embeds the fork-choice subsystem:

* `src/consensus/lmd_ghost/src/fork_choice_store.rs` — the `ForkChoiceStore`
  trait whose default `on_tick` carries the epoch-boundary promotion logic;
* `src/beacon_node/beacon_chain/src/fork_choice.rs` — the `ForkChoice`
  facade with persistence (`to_persisted` / `from_persisted`,
  `PersistedForkChoice`, its `StoreItem` impl);
* `src/consensus/fork_choice/tests/tests.rs` — the `is_safe_to_update`
  helper and the behavioural fixtures for the justified-checkpoint rules.

Slots, epochs and 32-byte roots are embedded as `Nat`.  The chain-spec
constants are fixed at their mainnet values, matching `MainnetEthSpec`
used throughout the repository's tests.

The block/attestation admission functions live in the `fork_choice` /
`lmd_ghost` crates whose implementation files are not part of the
source snapshot; they are modelled from the specification (see the doc
comments starting with "Modelled from the spec:").
-/

/-- Mainnet `slots_per_epoch`, `MainnetEthSpec::slots_per_epoch()` (32). -/
def slots_per_epoch : Nat := 32

/-- Protocol constant `SAFE_SLOTS_TO_UPDATE_JUSTIFIED` (8 for mainnet),
re-exported by the `fork_choice` crate and used by the tests. -/
def SAFE_SLOTS_TO_UPDATE_JUSTIFIED : Nat := 8

/-- First slot of an epoch, `Epoch::start_slot(slots_per_epoch)`. -/
def start_slot (epoch : Nat) : Nat := epoch * slots_per_epoch

/-- Epoch containing a slot, `Slot::epoch(slots_per_epoch)`. -/
def slot_epoch (slot : Nat) : Nat := slot / slots_per_epoch

/-- Modelled from the spec: `compute_slots_since_epoch_start` lives in the
`fork_choice` crate's `fork_choice.rs`, absent from the source snapshot.
It is the eth2 formula `slot - slot.epoch().start_slot()`. -/
def compute_slots_since_epoch_start (slot : Nat) : Nat :=
  slot - start_slot (slot_epoch slot)

/-- The `is_safe_to_update` helper of
`src/consensus/fork_choice/tests/tests.rs` (lines 179-181). -/
def is_safe_to_update (slot : Nat) : Bool :=
  slot % slots_per_epoch < SAFE_SLOTS_TO_UPDATE_JUSTIFIED

/-- A `Checkpoint`: `(epoch, block_root)`. -/
structure Checkpoint where
  epoch : Nat
  root : Nat
deriving DecidableEq

/-- The fork-choice `Store` state (spec section 3; the trait of
`src/consensus/lmd_ghost/src/fork_choice_store.rs` together with the
fields enumerated for its persisted form in spec section 6). -/
structure ForkChoiceStore where
  current_slot : Nat
  justified_checkpoint : Checkpoint
  best_justified_checkpoint : Checkpoint
  finalized_checkpoint : Checkpoint
  justified_balances : List Nat
  finalized_roots : List Nat
  genesis_block_root : Nat
deriving DecidableEq

/-- Modelled from the spec: `set_justified_checkpoint_to_best_justified_checkpoint`
(trait method, its beacon-chain implementation is absent from the snapshot).
Sets `justified_checkpoint := best_justified_checkpoint` and recomputes
`justified_balances` from the state rooted at the new justified checkpoint;
the block-store collaborator is embedded as the oracle `balancesOf`. -/
def set_justified_checkpoint_to_best_justified_checkpoint
    (balancesOf : Nat → List Nat) (s : ForkChoiceStore) : ForkChoiceStore :=
  { s with
    justified_checkpoint := s.best_justified_checkpoint
    justified_balances := balancesOf s.best_justified_checkpoint.root }

/-- The default `on_tick` of the `ForkChoiceStore` trait
(`src/consensus/lmd_ghost/src/fork_choice_store.rs`, lines 35-55). -/
def on_tick (balancesOf : Nat → List Nat) (store : ForkChoiceStore)
    (time : Nat) : ForkChoiceStore :=
  let previous_slot := store.current_slot
  let store := { store with current_slot := time }
  let current_slot := store.current_slot
  if ¬ (current_slot > previous_slot ∧
      compute_slots_since_epoch_start current_slot = 0) then
    store
  else if store.best_justified_checkpoint.epoch >
      store.justified_checkpoint.epoch then
    set_justified_checkpoint_to_best_justified_checkpoint balancesOf store
  else
    store

/-- The trait's `update_time`: invoke `on_tick` for each slot between the
last known slot and the target slot, inclusive
(`src/consensus/lmd_ghost/src/fork_choice_store.rs`, lines 17-21). -/
def update_time (balancesOf : Nat → List Nat) (store : ForkChoiceStore)
    (current_slot : Nat) : ForkChoiceStore :=
  (List.range' (store.current_slot + 1)
      (current_slot - store.current_slot)).foldl (on_tick balancesOf) store

/-- A queued attestation (`lmd_ghost::QueuedAttestation`; its defining file
is absent from the snapshot, so the shape follows spec sections 3 and 6:
an indexed attestation remembered with its slot and target). -/
structure QueuedAttestation where
  slot : Nat
  attesting_indices : List Nat
  block_root : Nat
  target_epoch : Nat
deriving DecidableEq

/-- A block node held by the proto-array collaborator (spec section 4.2
step 6 lists the inserted tuple). -/
structure ProtoNode where
  root : Nat
  parent_root : Nat
  slot : Nat
  state_root : Nat
  justified_epoch : Nat
  finalized_epoch : Nat
deriving DecidableEq

/-- The proto-array collaborator state: the block DAG plus the
latest-message table `validator_index ↦ (block_root, target_epoch)`
(spec sections 4.3 and 4.5).  The scoring internals are out of scope. -/
structure ProtoArray where
  nodes : List ProtoNode
  votes : List (Nat × Nat × Nat)
deriving DecidableEq

/-- The collaborator's `contains_block` (spec section 4.5). -/
def ProtoArray.contains_block (pa : ProtoArray) (root : Nat) : Bool :=
  pa.nodes.any (fun n => n.root == root)

/-- The fork-choice-relevant projection of a `BeaconState` argument to
`on_block`: its two checkpoint fields plus the ancestor lookup that
`get_ancestor(state, root, slot)` performs through the state's embedded
block-root arrays and the proto array (spec section 4.1). -/
structure BeaconState where
  current_justified_checkpoint : Checkpoint
  finalized_checkpoint : Checkpoint
  ancestor_at : Nat → Nat → Option Nat

/-- The `InvalidBlock` error kinds (spec section 7; matched by the tests in
`src/consensus/fork_choice/tests/tests.rs`). -/
inductive InvalidBlock where
  | futureSlot (block_slot current_slot : Nat)
  | finalizedSlot (block_slot finalized_slot : Nat)
  | notFinalizedDescendant (block_ancestor finalized_root : Nat)
deriving DecidableEq

/-- The `InvalidAttestation` error kinds (spec sections 4.3 and 7). -/
inductive InvalidAttestation where
  | unknownHeadBlock (root : Nat)
  | futureSlot (attestation_slot current_slot : Nat)
deriving DecidableEq

/-- The `lmd_ghost` error type: invalid block, invalid attestation, or a
store error during an ancestor walk (spec section 7). -/
inductive ForkChoiceError where
  | invalidBlock (e : InvalidBlock)
  | invalidAttestation (e : InvalidAttestation)
  | missingAncestor (root slot : Nat)
deriving DecidableEq

/-- The `lmd_ghost::ForkChoice` backend: Store, ProtoArray, genesis block
root and the queued attestations (the components listed by
`ForkChoice::to_persisted` in
`src/beacon_node/beacon_chain/src/fork_choice.rs`, lines 185-194). -/
structure ForkChoice where
  fc_store : ForkChoiceStore
  proto_array : ProtoArray
  genesis_block_root : Nat
  queued_attestations : List QueuedAttestation
deriving DecidableEq

/-- Modelled from the spec: `set_justified_checkpoint(state)` (spec
section 4.1) derives the checkpoint from the state's current-justified
field and recomputes the balances; the beacon-chain implementation is
absent from the snapshot. -/
def set_justified_checkpoint (balancesOf : Nat → List Nat)
    (store : ForkChoiceStore) (state : BeaconState) : ForkChoiceStore :=
  { store with
    justified_checkpoint := state.current_justified_checkpoint
    justified_balances :=
      balancesOf state.current_justified_checkpoint.root }

/-- Modelled from the spec: `should_update_justified_checkpoint` of the
`fork_choice` crate, absent from the snapshot.  Per the eth2 v0.12
fork-choice document that the repository's doc comments cite as the
required behaviour, and per the behaviour pinned by the fixtures in
`src/consensus/fork_choice/tests/tests.rs`: inside the first
`SAFE_SLOTS_TO_UPDATE_JUSTIFIED` slots of an epoch the update is always
allowed; outside them it is allowed exactly when the new justified
checkpoint descends from the current one at the start slot of the
current justified epoch. -/
def should_update_justified_checkpoint (store : ForkChoiceStore)
    (state : BeaconState) : Except ForkChoiceError Bool :=
  if compute_slots_since_epoch_start store.current_slot <
      SAFE_SLOTS_TO_UPDATE_JUSTIFIED then
    .ok true
  else
    let justified_slot := start_slot store.justified_checkpoint.epoch
    match state.ancestor_at state.current_justified_checkpoint.root
        justified_slot with
    | none => .error (.missingAncestor
        state.current_justified_checkpoint.root justified_slot)
    | some a => .ok (decide (a = store.justified_checkpoint.root))

/-- Modelled from the spec: the justified-checkpoint step of `on_block`
(spec section 4.2 step 4).  When the state's justified epoch exceeds the
store's, the best-justified checkpoint is raised if it is also exceeded,
and the effective justified checkpoint is adopted when
`should_update_justified_checkpoint` allows it. -/
def update_justified_on_block (balancesOf : Nat → List Nat)
    (store : ForkChoiceStore) (state : BeaconState) :
    Except ForkChoiceError ForkChoiceStore :=
  if state.current_justified_checkpoint.epoch >
      store.justified_checkpoint.epoch then
    let s :=
      if state.current_justified_checkpoint.epoch >
          store.best_justified_checkpoint.epoch then
        { store with
          best_justified_checkpoint := state.current_justified_checkpoint }
      else
        store
    match should_update_justified_checkpoint s state with
    | .error e => .error e
    | .ok true => .ok (set_justified_checkpoint balancesOf s state)
    | .ok false => .ok s
  else
    .ok store

/-- Modelled from the spec: the finalized-checkpoint step of `on_block`
(spec section 4.2 step 5).  When the state's finalized epoch exceeds the
store's, the finalized checkpoint is replaced and the justified
checkpoint is set to the state's current-justified checkpoint
unconditionally ("finality trumps the safety rule"). -/
def update_finalized_on_block (balancesOf : Nat → List Nat)
    (store : ForkChoiceStore) (state : BeaconState) : ForkChoiceStore :=
  if state.finalized_checkpoint.epoch > store.finalized_checkpoint.epoch then
    set_justified_checkpoint balancesOf
      { store with finalized_checkpoint := state.finalized_checkpoint } state
  else
    store

/-- Modelled from the spec: one latest-message update — a
`(validator_index → (block_root, target_epoch))` record overwriting any
strictly older target (spec section 4.3). -/
def update_vote (votes : List (Nat × Nat × Nat)) (idx root epoch : Nat) :
    List (Nat × Nat × Nat) :=
  if votes.any (fun v => v.1 == idx) then
    votes.map (fun v =>
      if v.1 == idx && v.2.2 < epoch then (idx, root, epoch) else v)
  else
    votes ++ [(idx, root, epoch)]

/-- Modelled from the spec: validation and application of one eligible
attestation (spec section 4.3): the block voted on must be known to the
proto array and the attestation must not be from a future slot; on
success every attesting index gains a latest-message record. -/
def process_attestation (current_slot : Nat) (pa : ProtoArray)
    (att : QueuedAttestation) : Except ForkChoiceError ProtoArray :=
  if ¬ pa.contains_block att.block_root then
    .error (.invalidAttestation (.unknownHeadBlock att.block_root))
  else if att.slot > current_slot then
    .error (.invalidAttestation (.futureSlot att.slot current_slot))
  else
    .ok { pa with
      votes := att.attesting_indices.foldl
        (fun vs i => update_vote vs i att.block_root att.target_epoch)
        pa.votes }

/-- Modelled from the spec: draining of the attestation queue (spec
sections 4.2 step 7 and 4.3).  Every queued attestation whose target
slot has become at most `current_slot` is reprocessed exactly once;
failures are dropped, the rest stay queued. -/
def drain_queued (current_slot : Nat) (pa : ProtoArray)
    (queued : List QueuedAttestation) :
    ProtoArray × List QueuedAttestation :=
  let eligible := queued.filter
    (fun a => decide (start_slot a.target_epoch ≤ current_slot))
  let rest := queued.filter
    (fun a => decide (current_slot < start_slot a.target_epoch))
  (eligible.foldl
      (fun p a =>
        match process_attestation current_slot p a with
        | .ok p2 => p2
        | .error _ => p)
      pa,
    rest)

/-- Modelled from the spec: `on_block` of the `fork_choice` crate (spec
section 4.2), absent from the snapshot.  Time is brought up to date,
the three admission checks run in order (FutureSlot, FinalizedSlot,
NotFinalizedDescendant), then the justified and finalized checkpoint
steps, the DAG insertion, and the queue drain.  Admission is atomic:
an error leaves the returned value unconstructed. -/
def on_block (balancesOf : Nat → List Nat) (fc : ForkChoice)
    (current_slot : Nat) (block : ProtoNode) (block_root : Nat)
    (state : BeaconState) : Except ForkChoiceError ForkChoice :=
  let store := update_time balancesOf fc.fc_store current_slot
  if block.slot > store.current_slot then
    .error (.invalidBlock (.futureSlot block.slot store.current_slot))
  else
    let finalized_slot := start_slot store.finalized_checkpoint.epoch
    if block.slot ≤ finalized_slot then
      .error (.invalidBlock (.finalizedSlot block.slot finalized_slot))
    else
      match state.ancestor_at block.parent_root finalized_slot with
      | none => .error (.missingAncestor block.parent_root finalized_slot)
      | some block_ancestor =>
        if block_ancestor ≠ store.finalized_checkpoint.root then
          .error (.invalidBlock (.notFinalizedDescendant block_ancestor
            store.finalized_checkpoint.root))
        else
          match update_justified_on_block balancesOf store state with
          | .error e => .error e
          | .ok s4 =>
            let s5 := update_finalized_on_block balancesOf s4 state
            let pa := { fc.proto_array with
              nodes := fc.proto_array.nodes ++
                [{ root := block_root
                   parent_root := block.parent_root
                   slot := block.slot
                   state_root := block.state_root
                   justified_epoch :=
                     state.current_justified_checkpoint.epoch
                   finalized_epoch := state.finalized_checkpoint.epoch }] }
            let drained :=
              drain_queued s5.current_slot pa fc.queued_attestations
            .ok { fc with
              fc_store := s5
              proto_array := drained.1
              queued_attestations := drained.2 }

/-- Modelled from the spec: `on_attestation` (spec section 4.3), absent
from the snapshot.  An attestation whose target start slot is in the
future is enqueued; otherwise it is validated and applied. -/
def on_attestation (balancesOf : Nat → List Nat) (fc : ForkChoice)
    (current_slot : Nat) (att : QueuedAttestation) :
    Except ForkChoiceError ForkChoice :=
  let store := update_time balancesOf fc.fc_store current_slot
  if start_slot att.target_epoch > store.current_slot then
    .ok { fc with
      fc_store := store
      queued_attestations := fc.queued_attestations ++ [att] }
  else
    match process_attestation store.current_slot fc.proto_array att with
    | .error e => .error e
    | .ok pa => .ok { fc with fc_store := store, proto_array := pa }

/-- The `on_tick` entry point at the backend level: the store ticks and
the newly eligible queued attestations are drained (spec section 4.3). -/
def on_tick_fc (balancesOf : Nat → List Nat) (fc : ForkChoice)
    (time : Nat) : ForkChoice :=
  let store := on_tick balancesOf fc.fc_store time
  let drained :=
    drain_queued store.current_slot fc.proto_array fc.queued_attestations
  { fc with
    fc_store := store
    proto_array := drained.1
    queued_attestations := drained.2 }

/-- The state effect of `find_head` (spec section 4.4): update time,
drain the queue; the weighted head itself is computed by the
proto-array collaborator and does not touch the store. -/
def find_head_fc (balancesOf : Nat → List Nat) (fc : ForkChoice)
    (current_slot : Nat) : ForkChoice :=
  let store := update_time balancesOf fc.fc_store current_slot
  let drained :=
    drain_queued store.current_slot fc.proto_array fc.queued_attestations
  { fc with
    fc_store := store
    proto_array := drained.1
    queued_attestations := drained.2 }

/-- The facade's `process_block`
(`src/beacon_node/beacon_chain/src/fork_choice.rs`, lines 103-117):
the backend call's result applied to the locked state; per spec
section 7 an admission error leaves the fork-choice state unchanged. -/
def process_block (balancesOf : Nat → List Nat) (fc : ForkChoice)
    (current_slot : Nat) (block : ProtoNode) (block_root : Nat)
    (state : BeaconState) : ForkChoice × Option ForkChoiceError :=
  match on_block balancesOf fc current_slot block block_root state with
  | .ok fc2 => (fc2, none)
  | .error e => (fc, some e)

/-- The facade's `process_indexed_attestation`
(`src/beacon_node/beacon_chain/src/fork_choice.rs`, lines 85-97). -/
def process_indexed_attestation (balancesOf : Nat → List Nat)
    (fc : ForkChoice) (current_slot : Nat) (att : QueuedAttestation) :
    ForkChoice × Option ForkChoiceError :=
  match on_attestation balancesOf fc current_slot att with
  | .ok fc2 => (fc2, none)
  | .error e => (fc, some e)

/-- Reads a length-prefixed sequence of tokens and returns it together
with the unread remainder. -/
def read_list_tokens : List Nat → Option (List Nat × List Nat)
  | [] => none
  | n :: rest =>
    if n ≤ rest.length then some (rest.take n, rest.drop n) else none

/-- Modelled from the spec: the byte encoding of the beacon-chain
`ForkChoiceStore` (its `to_bytes`, absent from the snapshot).  Spec
section 6 lists the contents: current slot, three checkpoints, justified
balances, finalized root list, genesis block root; the encoding is
embedded as a deterministic token stream. -/
def ForkChoiceStore.to_bytes (s : ForkChoiceStore) : List Nat :=
  [s.current_slot,
   s.justified_checkpoint.epoch, s.justified_checkpoint.root,
   s.best_justified_checkpoint.epoch, s.best_justified_checkpoint.root,
   s.finalized_checkpoint.epoch, s.finalized_checkpoint.root,
   s.justified_balances.length] ++ s.justified_balances ++
  [s.finalized_roots.length] ++ s.finalized_roots ++
  [s.genesis_block_root]

/-- Modelled from the spec: the inverse of `ForkChoiceStore.to_bytes`
(the store's `from_bytes`, absent from the snapshot). -/
def ForkChoiceStore.from_bytes (l : List Nat) : Option ForkChoiceStore :=
  match l with
  | cur :: je :: jr :: be :: br :: fe :: fr :: rest =>
    match read_list_tokens rest with
    | none => none
    | some (bal, rest2) =>
      match read_list_tokens rest2 with
      | none => none
      | some (roots, rest3) =>
        match rest3 with
        | [g] => some
            { current_slot := cur
              justified_checkpoint := ⟨je, jr⟩
              best_justified_checkpoint := ⟨be, br⟩
              finalized_checkpoint := ⟨fe, fr⟩
              justified_balances := bal
              finalized_roots := roots
              genesis_block_root := g }
        | _ => none
  | _ => none

/-- Flattens a record encoder over a list (used by the proto-array
encoding). -/
def cat_map (f : α → List Nat) : List α → List Nat
  | [] => []
  | x :: xs => f x ++ cat_map f xs

/-- One proto-array node as six tokens. -/
def encode_node (n : ProtoNode) : List Nat :=
  [n.root, n.parent_root, n.slot, n.state_root, n.justified_epoch,
   n.finalized_epoch]

/-- One latest-message record as three tokens. -/
def encode_vote (v : Nat × Nat × Nat) : List Nat :=
  [v.1, v.2.1, v.2.2]

/-- Reads `count` six-token node records. -/
def read_nodes : Nat → List Nat → Option (List ProtoNode × List Nat)
  | 0, rest => some ([], rest)
  | count + 1, r :: p :: s :: st :: je :: fe :: rest =>
    match read_nodes count rest with
    | none => none
    | some (ns, rest2) => some (⟨r, p, s, st, je, fe⟩ :: ns, rest2)
  | _ + 1, _ => none

/-- Reads `count` three-token vote records. -/
def read_votes : Nat → List Nat → Option (List (Nat × Nat × Nat) × List Nat)
  | 0, rest => some ([], rest)
  | count + 1, i :: r :: e :: rest =>
    match read_votes count rest with
    | none => none
    | some (vs, rest2) => some ((i, r, e) :: vs, rest2)
  | _ + 1, _ => none

/-- Modelled from the spec: the proto-array collaborator's `as_bytes`
(spec section 4.5; opaque at the facade layer), embedded as a
deterministic token stream of its nodes and latest messages. -/
def ProtoArray.as_bytes (pa : ProtoArray) : List Nat :=
  [pa.nodes.length] ++ cat_map encode_node pa.nodes ++
  [pa.votes.length] ++ cat_map encode_vote pa.votes

/-- Modelled from the spec: the proto-array collaborator's `from_bytes`
(spec section 4.5). -/
def ProtoArray.from_bytes (l : List Nat) : Option ProtoArray :=
  match l with
  | [] => none
  | n :: rest =>
    match read_nodes n rest with
    | none => none
    | some (ns, rest2) =>
      match rest2 with
      | [] => none
      | m :: rest3 =>
        match read_votes m rest3 with
        | none => none
        | some (vs, rest4) =>
          match rest4 with
          | [] => some ⟨ns, vs⟩
          | _ => none

/-- The `PersistedForkChoice` snapshot struct
(`src/beacon_node/beacon_chain/src/fork_choice.rs`, lines 209-215):
Store bytes, ProtoArray bytes, queued attestations, genesis block root,
in this order. -/
structure PersistedForkChoice where
  fc_store_bytes : List Nat
  proto_array_bytes : List Nat
  queued_attestations : List QueuedAttestation
  genesis_block_root : Nat
deriving DecidableEq

/-- The facade error type (`beacon_chain::fork_choice::Error`,
`src/beacon_node/beacon_chain/src/fork_choice.rs`, lines 16-24). -/
inductive Error where
  | invalidAttestation (e : InvalidAttestation)
  | backendError (e : ForkChoiceError)
  | invalidProtoArrayBytes
  | invalidForkChoiceStoreBytes
  | unableToReadSlot
deriving DecidableEq

/-- The facade's `to_persisted`
(`src/beacon_node/beacon_chain/src/fork_choice.rs`, lines 185-194):
a snapshot of the four components under a read lock. -/
def to_persisted (fc : ForkChoice) : PersistedForkChoice :=
  { fc_store_bytes := fc.fc_store.to_bytes
    proto_array_bytes := fc.proto_array.as_bytes
    queued_attestations := fc.queued_attestations
    genesis_block_root := fc.genesis_block_root }

/-- The backend's `from_components` constructor used by
`from_persisted`. -/
def from_components (store : ForkChoiceStore) (pa : ProtoArray)
    (genesis_block_root : Nat) (queued : List QueuedAttestation) :
    ForkChoice :=
  { fc_store := store
    proto_array := pa
    genesis_block_root := genesis_block_root
    queued_attestations := queued }

/-- The facade's `from_persisted`
(`src/beacon_node/beacon_chain/src/fork_choice.rs`, lines 164-181):
decode the store bytes, decode the proto-array bytes, rebuild from
components. -/
def from_persisted (p : PersistedForkChoice) : Except Error ForkChoice :=
  match ForkChoiceStore.from_bytes p.fc_store_bytes with
  | none => .error .invalidForkChoiceStoreBytes
  | some store =>
    match ProtoArray.from_bytes p.proto_array_bytes with
    | none => .error .invalidProtoArrayBytes
    | some pa => .ok (from_components store pa p.genesis_block_root
        p.queued_attestations)

/-- The structural equality on the backend used by the facade's
`PartialEq` (`src/beacon_node/beacon_chain/src/fork_choice.rs`,
lines 44-48, spelled out by spec section 8's round-trip property):
equality of Store bytes, ProtoArray bytes, queued attestations and
genesis block root. -/
def backend_eq (a b : ForkChoice) : Prop :=
  a.fc_store.to_bytes = b.fc_store.to_bytes ∧
  a.proto_array.as_bytes = b.proto_array.as_bytes ∧
  a.queued_attestations = b.queued_attestations ∧
  a.genesis_block_root = b.genesis_block_root

/-- Little-endian fixed-width byte encoding of a natural number
(the SimpleSerialize basic-type encoding). -/
def encodeLE : Nat → Nat → List Nat
  | 0, _ => []
  | k + 1, n => n % 256 :: encodeLE k (n / 256)

/-- Little-endian byte decoding. -/
def decodeLE : List Nat → Nat
  | [] => 0
  | b :: bs => b + 256 * decodeLE bs

/-- Reads `count` fixed-width `k`-byte values. -/
def read_chunks (k : Nat) : Nat → List Nat → Option (List Nat × List Nat)
  | 0, rest => some ([], rest)
  | count + 1, bytes =>
    if k ≤ bytes.length then
      match read_chunks k count (bytes.drop k) with
      | none => none
      | some (l, rest) => some (decodeLE (bytes.take k) :: l, rest)
    else none

/-- Modelled from the spec: the SimpleSerialize bytes of one queued
attestation (the derive on `lmd_ghost::QueuedAttestation` is absent from
the snapshot): slot, count-prefixed attesting indices, block root,
target epoch. -/
def QueuedAttestation.as_ssz_bytes (a : QueuedAttestation) : List Nat :=
  encodeLE 8 a.slot ++
  (encodeLE 4 a.attesting_indices.length ++
    (cat_map (encodeLE 8) a.attesting_indices ++
      (encodeLE 32 a.block_root ++ encodeLE 8 a.target_epoch)))

/-- Reads one queued attestation and returns the unread remainder. -/
def read_queued_attestation (bytes : List Nat) :
    Option (QueuedAttestation × List Nat) :=
  if 8 ≤ bytes.length then
    let slot := decodeLE (bytes.take 8)
    let r1 := bytes.drop 8
    if 4 ≤ r1.length then
      let count := decodeLE (r1.take 4)
      let r2 := r1.drop 4
      match read_chunks 8 count r2 with
      | none => none
      | some (idxs, r3) =>
        if 32 ≤ r3.length then
          let root := decodeLE (r3.take 32)
          let r4 := r3.drop 32
          if 8 ≤ r4.length then
            some (⟨slot, idxs, root, decodeLE (r4.take 8)⟩, r4.drop 8)
          else none
        else none
    else none
  else none

/-- Reads `count` queued attestations. -/
def read_queued_attestations :
    Nat → List Nat → Option (List QueuedAttestation × List Nat)
  | 0, rest => some ([], rest)
  | count + 1, bytes =>
    match read_queued_attestation bytes with
    | none => none
    | some (a, rest) =>
      match read_queued_attestations count rest with
      | none => none
      | some (l, rest2) => some (a :: l, rest2)

/-- Modelled from the spec: the bytes of the queued-attestation sequence
field (count-prefixed items). -/
def encode_qa_list (l : List QueuedAttestation) : List Nat :=
  encodeLE 4 l.length ++ cat_map QueuedAttestation.as_ssz_bytes l

/-- Decodes the queued-attestation sequence field, requiring the field
bytes to be consumed exactly. -/
def decode_qa_list (bytes : List Nat) : Option (List QueuedAttestation) :=
  if 4 ≤ bytes.length then
    match read_queued_attestations (decodeLE (bytes.take 4))
        (bytes.drop 4) with
    | some (l, []) => some l
    | _ => none
  else none

/-- The `as_ssz_bytes` of `PersistedForkChoice`
(`src/beacon_node/beacon_chain/src/fork_choice.rs`, lines 209-215; the
derive expands to the SimpleSerialize container): a fixed part holding
one 4-byte offset per variable field followed by the 32-byte genesis
block root, then the three variable fields — Store bytes, ProtoArray
bytes, queued attestations — in field order. -/
def PersistedForkChoice.as_ssz_bytes (p : PersistedForkChoice) : List Nat :=
  let f1 := p.fc_store_bytes
  let f2 := p.proto_array_bytes
  let f3 := encode_qa_list p.queued_attestations
  encodeLE 4 44 ++
    (encodeLE 4 (44 + f1.length) ++
      (encodeLE 4 (44 + f1.length + f2.length) ++
        (encodeLE 32 p.genesis_block_root ++ (f1 ++ (f2 ++ f3)))))

/-- The SimpleSerialize decoding of `PersistedForkChoice`. -/
def PersistedForkChoice.from_ssz_bytes (bytes : List Nat) :
    Option PersistedForkChoice :=
  if 44 ≤ bytes.length then
    let o1 := decodeLE (bytes.take 4)
    let o2 := decodeLE ((bytes.drop 4).take 4)
    let o3 := decodeLE ((bytes.drop 8).take 4)
    let g := decodeLE ((bytes.drop 12).take 32)
    if o1 = 44 ∧ 44 ≤ o2 ∧ o2 ≤ o3 ∧ o3 ≤ bytes.length then
      match decode_qa_list (bytes.drop o3) with
      | none => none
      | some qs => some
          { fc_store_bytes := (bytes.drop 44).take (o2 - 44)
            proto_array_bytes := (bytes.drop o2).take (o3 - o2)
            queued_attestations := qs
            genesis_block_root := g }
    else none
  else none

/-- The key-value columns of the backing store referenced by the
snapshot; `DBColumn::ForkChoice` is the dedicated fork-choice column. -/
inductive DBColumn where
  | BeaconBlock
  | BeaconState
  | ForkChoice
deriving DecidableEq

/-- The `StoreItem::db_column` of `PersistedForkChoice`
(`src/beacon_node/beacon_chain/src/fork_choice.rs`, lines 217-220). -/
def PersistedForkChoice.db_column : DBColumn := .ForkChoice

/-- The `StoreItem::as_store_bytes` of `PersistedForkChoice`
(`src/beacon_node/beacon_chain/src/fork_choice.rs`, lines 222-224). -/
def PersistedForkChoice.as_store_bytes (p : PersistedForkChoice) :
    List Nat :=
  p.as_ssz_bytes

/-- The `StoreItem::from_store_bytes` of `PersistedForkChoice`
(`src/beacon_node/beacon_chain/src/fork_choice.rs`, lines 226-228). -/
def PersistedForkChoice.from_store_bytes (bytes : List Nat) :
    Option PersistedForkChoice :=
  PersistedForkChoice.from_ssz_bytes bytes

/-- Field-width validity of one queued attestation: every numeric field
fits the width the SimpleSerialize encoding gives it. -/
def QueuedAttestation.ssz_valid (a : QueuedAttestation) : Prop :=
  a.slot < 256 ^ 8 ∧ a.attesting_indices.length < 256 ^ 4 ∧
  (∀ i ∈ a.attesting_indices, i < 256 ^ 8) ∧
  a.block_root < 256 ^ 32 ∧ a.target_epoch < 256 ^ 8

/-- Validity of a snapshot: the genesis root is a 32-byte value, the
variable-field offsets fit in 4 bytes, and every queued attestation is
field-width valid. -/
def PersistedForkChoice.ssz_valid (p : PersistedForkChoice) : Prop :=
  p.genesis_block_root < 256 ^ 32 ∧
  44 + p.fc_store_bytes.length + p.proto_array_bytes.length < 256 ^ 4 ∧
  p.queued_attestations.length < 256 ^ 4 ∧
  ∀ a ∈ p.queued_attestations, a.ssz_valid

instance (a : QueuedAttestation) : Decidable a.ssz_valid := by
  unfold QueuedAttestation.ssz_valid
  infer_instance

instance (p : PersistedForkChoice) : Decidable p.ssz_valid := by
  unfold PersistedForkChoice.ssz_valid
  infer_instance

/-- One public operation of the admission protocol (spec sections 4.2 to
4.4): a tick, a block, an attestation, or a head query. -/
inductive Op where
  | tick (slot : Nat)
  | block (current_slot : Nat) (b : ProtoNode) (root : Nat)
      (st : BeaconState)
  | attestation (current_slot : Nat) (att : QueuedAttestation)
  | head (slot : Nat)

/-- Applies one public operation through the facade; an admission error
returns the state unchanged (spec section 7). -/
def apply_op (balancesOf : Nat → List Nat) (fc : ForkChoice) :
    Op → ForkChoice
  | .tick s => on_tick_fc balancesOf fc s
  | .block c b r st => (process_block balancesOf fc c b r st).1
  | .attestation c a => (process_indexed_attestation balancesOf fc c a).1
  | .head s => find_head_fc balancesOf fc s

/-- Runs a sequence of public operations. -/
def run_ops (balancesOf : Nat → List Nat) (fc : ForkChoice) :
    List Op → ForkChoice
  | [] => fc
  | op :: rest => run_ops balancesOf (apply_op balancesOf fc op) rest

/-- Invariant I1 of spec section 3:
`finalized_checkpoint.epoch ≤ justified_checkpoint.epoch ≤
best_justified_checkpoint.epoch`. -/
def checkpoint_invariant (s : ForkChoiceStore) : Prop :=
  s.finalized_checkpoint.epoch ≤ s.justified_checkpoint.epoch ∧
  s.justified_checkpoint.epoch ≤ s.best_justified_checkpoint.epoch

instance (s : ForkChoiceStore) : Decidable (checkpoint_invariant s) := by
  unfold checkpoint_invariant
  infer_instance

/-- Well-formedness of a beacon state handed to `on_block`: its
finalized epoch does not exceed its current-justified epoch.  The
facade documents that passing an invalid block is a logic error; every
state produced by a valid chain satisfies this. -/
def state_wf (st : BeaconState) : Prop :=
  st.finalized_checkpoint.epoch ≤ st.current_justified_checkpoint.epoch

/-- Every block operation of the sequence carries a well-formed state. -/
def ops_wf (ops : List Op) : Prop :=
  ∀ op ∈ ops, match op with
    | Op.block _ _ _ st => state_wf st
    | _ => True

/-- Every raw tick of the sequence respects the documented `on_tick`
precondition: its slot is at least the store's slot at that point (the
slot clock is monotonically non-decreasing, spec section 6). -/
def ticks_respect (balancesOf : Nat → List Nat) (fc : ForkChoice) :
    List Op → Prop
  | [] => True
  | op :: rest =>
    (match op with
      | Op.tick s => fc.fc_store.current_slot ≤ s
      | _ => True) ∧
    ticks_respect balancesOf (apply_op balancesOf fc op) rest

/-- The condition under which `should_update_justified_checkpoint`
answers yes: the slot is inside the safe window, or the new justified
checkpoint descends from the current one at the start slot of the
current justified epoch. -/
def safe_or_descendant (store : ForkChoiceStore) (state : BeaconState) :
    Prop :=
  compute_slots_since_epoch_start store.current_slot <
      SAFE_SLOTS_TO_UPDATE_JUSTIFIED ∨
  state.ancestor_at state.current_justified_checkpoint.root
      (start_slot store.justified_checkpoint.epoch) =
    some store.justified_checkpoint.root

instance (store : ForkChoiceStore) (state : BeaconState) :
    Decidable (safe_or_descendant store state) :=
  inferInstanceAs (Decidable (_ ∨ _))

/-- The facade's `to_persisted` viewed as a call on the shared state: the
Rust method takes `&self` and only a read lease
(`src/beacon_node/beacon_chain/src/fork_choice.rs`, lines 185-194), so its
embedding returns the snapshot together with the untouched state. -/
def to_persisted_call (fc : ForkChoice) : PersistedForkChoice × ForkChoice :=
  (to_persisted fc, fc)

/-- Balance oracle used by the concrete C1 scenario. -/
def cex_balances : Nat → List Nat := fun _ => []

/-- Concrete store for the C1 scenario, mirroring the fixture of
`justified_checkpoint_updates_with_non_descendent_inside_safe_slots_without_finality`
(`src/consensus/fork_choice/tests/tests.rs`, lines 228-254): slot 96 (the
first slot of epoch 3, inside the safe window), justified and
best-justified at epoch 2 with root 200, finalized at epoch 0. -/
def cex_store : ForkChoiceStore :=
  { current_slot := 96
    justified_checkpoint := ⟨2, 200⟩
    best_justified_checkpoint := ⟨2, 200⟩
    finalized_checkpoint := ⟨0, 100⟩
    justified_balances := []
    finalized_roots := []
    genesis_block_root := 100 }

/-- Concrete fork choice for the C1 scenario. -/
def cex_fc : ForkChoice :=
  { fc_store := cex_store
    proto_array := ⟨[], []⟩
    genesis_block_root := 100
    queued_attestations := [] }

/-- Concrete block for the C1 scenario: slot 96, parent 150. -/
def cex_block : ProtoNode :=
  { root := 151
    parent_root := 150
    slot := 96
    state_root := 0
    justified_epoch := 0
    finalized_epoch := 0 }

/-- Concrete state for the C1 scenario: the justified checkpoint jumps to
epoch 3 with a root (150) that does **not** descend from the stored
justified root 200 — its ancestor at slot 64 (the start slot of epoch 2)
is the foreign root 42 — while the finalized checkpoint is unchanged. -/
def cex_state : BeaconState :=
  { current_justified_checkpoint := ⟨3, 150⟩
    finalized_checkpoint := ⟨0, 100⟩
    ancestor_at := fun r s =>
      if r == 150 && s == 0 then some 100
      else if r == 150 && s == 64 then some 42
      else none }

/-- The fork-choice value produced by the C1 scenario. -/
def cex_result : ForkChoice :=
  { fc_store :=
      { current_slot := 96
        justified_checkpoint := ⟨3, 150⟩
        best_justified_checkpoint := ⟨3, 150⟩
        finalized_checkpoint := ⟨0, 100⟩
        justified_balances := []
        finalized_roots := []
        genesis_block_root := 100 }
    proto_array := ⟨[⟨151, 150, 96, 0, 3, 0⟩], []⟩
    genesis_block_root := 100
    queued_attestations := [] }

/-- A concrete persisted snapshot used to exercise the SimpleSerialize
layout. -/
def sample_persisted : PersistedForkChoice :=
  { fc_store_bytes := [1, 2]
    proto_array_bytes := [3]
    queued_attestations := [⟨5, [0, 1], 9, 2⟩]
    genesis_block_root := 77 }


/-- Balance oracle used by the concrete witnesses. -/
def sample_bal : Nat → List Nat := fun r => [r]

/-- A concrete store used by the witnesses: slot 10, justified epoch 1,
best-justified epoch 2, finalized epoch 0. -/
def sample_store : ForkChoiceStore :=
  { current_slot := 10
    justified_checkpoint := ⟨1, 7⟩
    best_justified_checkpoint := ⟨2, 9⟩
    finalized_checkpoint := ⟨0, 5⟩
    justified_balances := [1]
    finalized_roots := []
    genesis_block_root := 5 }

/-- A concrete fork choice used by the witnesses. -/
def sample_fc : ForkChoice :=
  { fc_store := sample_store
    proto_array := ⟨[], []⟩
    genesis_block_root := 5
    queued_attestations := [] }

/-- A block from a future slot (slot 40 against store slot 10). -/
def sample_future_block : ProtoNode :=
  { root := 20
    parent_root := 19
    slot := 40
    state_root := 0
    justified_epoch := 0
    finalized_epoch := 0 }

/-- An attestation voting for a block root (7) unknown to the proto
array. -/
def sample_bad_att : QueuedAttestation :=
  { slot := 0
    attesting_indices := [0]
    block_root := 7
    target_epoch := 0 }

/-- A beacon state used alongside the erroring block of the C6 witness. -/
def sample_state : BeaconState :=
  { current_justified_checkpoint := ⟨1, 7⟩
    finalized_checkpoint := ⟨0, 5⟩
    ancestor_at := fun _ _ => none }


theorem compute_slots_since_epoch_start_eq_mod (slot : Nat) :
    compute_slots_since_epoch_start slot = slot % slots_per_epoch := by
  unfold compute_slots_since_epoch_start start_slot slot_epoch slots_per_epoch
  omega

theorem on_tick_current_slot (balancesOf : Nat → List Nat)
    (store : ForkChoiceStore) (time : Nat) :
    (on_tick balancesOf store time).current_slot = time := by
  unfold on_tick set_justified_checkpoint_to_best_justified_checkpoint
  dsimp only
  split
  · rfl
  · split <;> rfl

theorem on_tick_eq (balancesOf : Nat → List Nat) (store : ForkChoiceStore)
    (time : Nat) :
    on_tick balancesOf store time =
      if time > store.current_slot ∧ time % slots_per_epoch = 0 ∧
          store.best_justified_checkpoint.epoch >
            store.justified_checkpoint.epoch then
        { store with
          current_slot := time
          justified_checkpoint := store.best_justified_checkpoint
          justified_balances :=
            balancesOf store.best_justified_checkpoint.root }
      else
        { store with current_slot := time } := by
  unfold on_tick set_justified_checkpoint_to_best_justified_checkpoint
  dsimp only
  rw [compute_slots_since_epoch_start_eq_mod]
  by_cases h1 : time > store.current_slot ∧ time % slots_per_epoch = 0
  · simp only [h1, not_true_eq_false, if_false]
    by_cases h2 : store.best_justified_checkpoint.epoch >
        store.justified_checkpoint.epoch
    · simp [h1.1, h1.2, h2]
    · simp [h1, h2]
  · have : ¬ (time > store.current_slot ∧ time % slots_per_epoch = 0 ∧
        store.best_justified_checkpoint.epoch >
          store.justified_checkpoint.epoch) := by tauto
    simp only [h1, not_false_eq_true, if_true, this, if_false]

theorem on_tick_finalized (balancesOf : Nat → List Nat)
    (s : ForkChoiceStore) (t : Nat) :
    (on_tick balancesOf s t).finalized_checkpoint =
      s.finalized_checkpoint := by
  rw [on_tick_eq]
  split <;> rfl

theorem on_tick_best (balancesOf : Nat → List Nat)
    (s : ForkChoiceStore) (t : Nat) :
    (on_tick balancesOf s t).best_justified_checkpoint =
      s.best_justified_checkpoint := by
  rw [on_tick_eq]
  split <;> rfl

theorem on_tick_invariant (balancesOf : Nat → List Nat)
    (s : ForkChoiceStore) (t : Nat) (h : checkpoint_invariant s) :
    checkpoint_invariant (on_tick balancesOf s t) := by
  rw [on_tick_eq]
  obtain ⟨h1, h2⟩ := h
  split
  · exact ⟨h1.trans h2, Nat.le_refl _⟩
  · exact ⟨h1, h2⟩

theorem foldl_on_tick_finalized (balancesOf : Nat → List Nat)
    (l : List Nat) :
    ∀ s : ForkChoiceStore,
      (l.foldl (on_tick balancesOf) s).finalized_checkpoint =
        s.finalized_checkpoint := by
  induction l with
  | nil => intro s; rfl
  | cons x xs ih =>
    intro s
    rw [List.foldl_cons, ih, on_tick_finalized]

theorem foldl_on_tick_invariant (balancesOf : Nat → List Nat)
    (l : List Nat) :
    ∀ s : ForkChoiceStore, checkpoint_invariant s →
      checkpoint_invariant (l.foldl (on_tick balancesOf) s) := by
  induction l with
  | nil => intro s h; exact h
  | cons x xs ih =>
    intro s h
    rw [List.foldl_cons]
    exact ih _ (on_tick_invariant balancesOf s x h)

theorem update_time_finalized (balancesOf : Nat → List Nat)
    (s : ForkChoiceStore) (c : Nat) :
    (update_time balancesOf s c).finalized_checkpoint =
      s.finalized_checkpoint :=
  foldl_on_tick_finalized balancesOf _ s

theorem update_time_invariant (balancesOf : Nat → List Nat)
    (s : ForkChoiceStore) (c : Nat) (h : checkpoint_invariant s) :
    checkpoint_invariant (update_time balancesOf s c) :=
  foldl_on_tick_invariant balancesOf _ s h

theorem foldl_range_on_tick_slot (balancesOf : Nat → List Nat) :
    ∀ (k start : Nat) (s : ForkChoiceStore),
      ((List.range' start k).foldl (on_tick balancesOf) s).current_slot =
        if k = 0 then s.current_slot else start + k - 1 := by
  intro k
  induction k with
  | zero => intro start s; rfl
  | succ k ih =>
    intro start s
    rw [List.range'_succ, List.foldl_cons, ih]
    by_cases hk : k = 0
    · subst hk
      simp [on_tick_current_slot]
    · simp only [hk, if_false, Nat.succ_ne_zero]
      omega

theorem update_time_slot (balancesOf : Nat → List Nat)
    (s : ForkChoiceStore) (c : Nat) :
    (update_time balancesOf s c).current_slot =
      if s.current_slot < c then c else s.current_slot := by
  unfold update_time
  rw [foldl_range_on_tick_slot]
  by_cases h : s.current_slot < c
  · have hne : c - s.current_slot ≠ 0 := by omega
    simp only [hne, if_false, h, if_true]
    omega
  · have hz : c - s.current_slot = 0 := by omega
    simp [hz, h]

theorem update_time_slot_ge (balancesOf : Nat → List Nat)
    (s : ForkChoiceStore) (c : Nat) :
    s.current_slot ≤ (update_time balancesOf s c).current_slot := by
  rw [update_time_slot]
  split <;> omega


theorem update_justified_on_block_ok (balancesOf : Nat → List Nat)
    (store : ForkChoiceStore) (state : BeaconState)
    (s4 : ForkChoiceStore)
    (h : update_justified_on_block balancesOf store state = .ok s4) :
    s4.current_slot = store.current_slot ∧
    s4.finalized_checkpoint = store.finalized_checkpoint ∧
    s4.best_justified_checkpoint =
      (if state.current_justified_checkpoint.epoch >
            store.justified_checkpoint.epoch ∧
          state.current_justified_checkpoint.epoch >
            store.best_justified_checkpoint.epoch then
        state.current_justified_checkpoint
      else
        store.best_justified_checkpoint) ∧
    s4.justified_checkpoint =
      (if state.current_justified_checkpoint.epoch >
            store.justified_checkpoint.epoch ∧
          safe_or_descendant store state then
        state.current_justified_checkpoint
      else
        store.justified_checkpoint) := by
  unfold update_justified_on_block should_update_justified_checkpoint at h
  by_cases hj : state.current_justified_checkpoint.epoch >
      store.justified_checkpoint.epoch
  · rw [if_pos hj] at h
    by_cases hsafe : compute_slots_since_epoch_start store.current_slot <
        SAFE_SLOTS_TO_UPDATE_JUSTIFIED
    · have hsd : safe_or_descendant store state := Or.inl hsafe
      by_cases hb : state.current_justified_checkpoint.epoch >
          store.best_justified_checkpoint.epoch
      · simp only [hb, if_true, hsafe] at h
        cases h
        exact ⟨rfl, rfl,
          by simp [set_justified_checkpoint, hj, hb],
          by simp [set_justified_checkpoint, hj, hsd]⟩
      · simp only [hb, if_false, hsafe, if_true] at h
        cases h
        exact ⟨rfl, rfl,
          by simp [set_justified_checkpoint, hb],
          by simp [set_justified_checkpoint, hj, hsd]⟩
    · by_cases hb : state.current_justified_checkpoint.epoch >
          store.best_justified_checkpoint.epoch
      all_goals
        simp only [hb, if_true, if_false, hsafe] at h
      all_goals
        cases hanc : state.ancestor_at
            state.current_justified_checkpoint.root
            (start_slot store.justified_checkpoint.epoch) with
        | none => rw [hanc] at h; cases h
        | some a =>
          rw [hanc] at h
          dsimp only at h
          by_cases heq : a = store.justified_checkpoint.root
          · rw [decide_eq_true heq] at h
            cases h
            have hsd : safe_or_descendant store state := by
              right; rw [hanc, heq]
            exact ⟨rfl, rfl,
              by simp [set_justified_checkpoint, hj, hb],
              by simp [set_justified_checkpoint, hj, hsd]⟩
          · rw [decide_eq_false heq] at h
            cases h
            have hnot : ¬ safe_or_descendant store state := by
              intro hc
              cases hc with
              | inl hl => exact hsafe hl
              | inr hr => rw [hanc] at hr; exact heq (by injection hr)
            exact ⟨rfl, rfl,
              by simp [hj, hb],
              by simp [hnot]⟩
  · rw [if_neg hj] at h
    cases h
    have hj2 : ¬ (state.current_justified_checkpoint.epoch >
        store.justified_checkpoint.epoch ∧
        state.current_justified_checkpoint.epoch >
          store.best_justified_checkpoint.epoch) := fun hc => hj hc.1
    have hj3 : ¬ (state.current_justified_checkpoint.epoch >
        store.justified_checkpoint.epoch ∧
        safe_or_descendant store state) := fun hc => hj hc.1
    exact ⟨rfl, rfl, (if_neg hj2).symm, (if_neg hj3).symm⟩

theorem update_finalized_on_block_eq (balancesOf : Nat → List Nat)
    (store : ForkChoiceStore) (state : BeaconState) :
    update_finalized_on_block balancesOf store state =
      if state.finalized_checkpoint.epoch >
          store.finalized_checkpoint.epoch then
        { store with
          finalized_checkpoint := state.finalized_checkpoint
          justified_checkpoint := state.current_justified_checkpoint
          justified_balances :=
            balancesOf state.current_justified_checkpoint.root }
      else
        store := by
  unfold update_finalized_on_block set_justified_checkpoint
  split <;> rfl

theorem on_block_ok_store (balancesOf : Nat → List Nat) (fc : ForkChoice)
    (current_slot : Nat) (block : ProtoNode) (block_root : Nat)
    (state : BeaconState) (fc' : ForkChoice)
    (h : on_block balancesOf fc current_slot block block_root state =
      .ok fc') :
    ∃ s4, update_justified_on_block balancesOf
        (update_time balancesOf fc.fc_store current_slot) state =
        .ok s4 ∧
      fc'.fc_store = update_finalized_on_block balancesOf s4 state := by
  unfold on_block at h
  dsimp only at h
  generalize hst : update_time balancesOf fc.fc_store current_slot =
    store at h ⊢
  by_cases h1 : block.slot > store.current_slot
  · rw [if_pos h1] at h
    cases h
  · rw [if_neg h1] at h
    by_cases h2 : block.slot ≤ start_slot store.finalized_checkpoint.epoch
    · rw [if_pos h2] at h
      cases h
    · rw [if_neg h2] at h
      cases hanc : state.ancestor_at block.parent_root
          (start_slot store.finalized_checkpoint.epoch) with
      | none => rw [hanc] at h; cases h
      | some anc =>
        rw [hanc] at h
        dsimp only at h
        by_cases h3 : anc ≠ store.finalized_checkpoint.root
        · rw [if_pos h3] at h
          cases h
        · rw [if_neg h3] at h
          cases hupd : update_justified_on_block balancesOf store state with
          | error e =>
            rw [hupd] at h
            cases h
          | ok s4 =>
            rw [hupd] at h
            dsimp only at h
            cases h
            exact ⟨s4, rfl, rfl⟩

theorem update_justified_on_block_invariant (balancesOf : Nat → List Nat)
    (store : ForkChoiceStore) (state : BeaconState) (s4 : ForkChoiceStore)
    (h : update_justified_on_block balancesOf store state = .ok s4)
    (hI : checkpoint_invariant store) :
    checkpoint_invariant s4 ∧
      state.current_justified_checkpoint.epoch ≤
        s4.best_justified_checkpoint.epoch := by
  obtain ⟨hslot, hfin, hbest, hjust⟩ :=
    update_justified_on_block_ok balancesOf store state s4 h
  obtain ⟨hI1, hI2⟩ := hI
  by_cases hC1 : state.current_justified_checkpoint.epoch >
      store.justified_checkpoint.epoch ∧
      state.current_justified_checkpoint.epoch >
        store.best_justified_checkpoint.epoch
  · rw [if_pos hC1] at hbest
    obtain ⟨hc1a, hc1b⟩ := hC1
    by_cases hC2 : state.current_justified_checkpoint.epoch >
        store.justified_checkpoint.epoch ∧
        safe_or_descendant store state
    · rw [if_pos hC2] at hjust
      have hf := congrArg Checkpoint.epoch hfin
      have hbe := congrArg Checkpoint.epoch hbest
      have hje := congrArg Checkpoint.epoch hjust
      exact ⟨⟨by omega, by omega⟩, by omega⟩
    · rw [if_neg hC2] at hjust
      have hf := congrArg Checkpoint.epoch hfin
      have hbe := congrArg Checkpoint.epoch hbest
      have hje := congrArg Checkpoint.epoch hjust
      exact ⟨⟨by omega, by omega⟩, by omega⟩
  · rw [if_neg hC1] at hbest
    rcases not_and_or.mp hC1 with hn | hn
    · by_cases hC2 : state.current_justified_checkpoint.epoch >
          store.justified_checkpoint.epoch ∧
          safe_or_descendant store state
      · exact absurd hC2.1 hn
      · rw [if_neg hC2] at hjust
        have hf := congrArg Checkpoint.epoch hfin
        have hbe := congrArg Checkpoint.epoch hbest
        have hje := congrArg Checkpoint.epoch hjust
        exact ⟨⟨by omega, by omega⟩, by omega⟩
    · by_cases hC2 : state.current_justified_checkpoint.epoch >
          store.justified_checkpoint.epoch ∧
          safe_or_descendant store state
      · rw [if_pos hC2] at hjust
        obtain ⟨hc2a, _⟩ := hC2
        have hf := congrArg Checkpoint.epoch hfin
        have hbe := congrArg Checkpoint.epoch hbest
        have hje := congrArg Checkpoint.epoch hjust
        exact ⟨⟨by omega, by omega⟩, by omega⟩
      · rw [if_neg hC2] at hjust
        have hf := congrArg Checkpoint.epoch hfin
        have hbe := congrArg Checkpoint.epoch hbest
        have hje := congrArg Checkpoint.epoch hjust
        exact ⟨⟨by omega, by omega⟩, by omega⟩

theorem update_finalized_on_block_slot (balancesOf : Nat → List Nat)
    (store : ForkChoiceStore) (state : BeaconState) :
    (update_finalized_on_block balancesOf store state).current_slot =
      store.current_slot := by
  rw [update_finalized_on_block_eq]
  split <;> rfl

theorem update_finalized_on_block_best (balancesOf : Nat → List Nat)
    (store : ForkChoiceStore) (state : BeaconState) :
    (update_finalized_on_block balancesOf store
        state).best_justified_checkpoint =
      store.best_justified_checkpoint := by
  rw [update_finalized_on_block_eq]
  split <;> rfl

theorem update_finalized_on_block_fin_le (balancesOf : Nat → List Nat)
    (store : ForkChoiceStore) (state : BeaconState) :
    store.finalized_checkpoint.epoch ≤
      (update_finalized_on_block balancesOf store
        state).finalized_checkpoint.epoch := by
  rw [update_finalized_on_block_eq]
  split
  · next hgt => exact Nat.le_of_lt hgt
  · exact Nat.le_refl _

theorem update_finalized_on_block_invariant (balancesOf : Nat → List Nat)
    (store : ForkChoiceStore) (state : BeaconState)
    (hI : checkpoint_invariant store) (hwf : state_wf state)
    (hcb : state.current_justified_checkpoint.epoch ≤
      store.best_justified_checkpoint.epoch) :
    checkpoint_invariant
      (update_finalized_on_block balancesOf store state) := by
  rw [update_finalized_on_block_eq]
  split
  · exact ⟨hwf, hcb⟩
  · exact hI

theorem on_block_ok_invariant (balancesOf : Nat → List Nat)
    (fc : ForkChoice) (current_slot : Nat) (block : ProtoNode)
    (block_root : Nat) (state : BeaconState) (fc' : ForkChoice)
    (h : on_block balancesOf fc current_slot block block_root state =
      .ok fc')
    (hI : checkpoint_invariant fc.fc_store) (hwf : state_wf state) :
    checkpoint_invariant fc'.fc_store := by
  obtain ⟨s4, hupd, hfc⟩ :=
    on_block_ok_store balancesOf fc current_slot block block_root state
      fc' h
  have hIu := update_time_invariant balancesOf fc.fc_store current_slot hI
  obtain ⟨hI4, hcb⟩ :=
    update_justified_on_block_invariant balancesOf _ state s4 hupd hIu
  rw [hfc]
  exact update_finalized_on_block_invariant balancesOf s4 state hI4 hwf hcb

theorem on_block_ok_mono (balancesOf : Nat → List Nat)
    (fc : ForkChoice) (current_slot : Nat) (block : ProtoNode)
    (block_root : Nat) (state : BeaconState) (fc' : ForkChoice)
    (h : on_block balancesOf fc current_slot block block_root state =
      .ok fc') :
    fc.fc_store.current_slot ≤ fc'.fc_store.current_slot ∧
    fc.fc_store.finalized_checkpoint.epoch ≤
      fc'.fc_store.finalized_checkpoint.epoch := by
  obtain ⟨s4, hupd, hfc⟩ :=
    on_block_ok_store balancesOf fc current_slot block block_root state
      fc' h
  obtain ⟨hslot, hfin, _, _⟩ :=
    update_justified_on_block_ok balancesOf _ state s4 hupd
  constructor
  · rw [hfc, update_finalized_on_block_slot, hslot]
    exact update_time_slot_ge balancesOf fc.fc_store current_slot
  · rw [hfc]
    calc fc.fc_store.finalized_checkpoint.epoch
        = s4.finalized_checkpoint.epoch := by
          rw [hfin, update_time_finalized]
      _ ≤ _ := update_finalized_on_block_fin_le balancesOf s4 state

theorem on_attestation_ok_store (balancesOf : Nat → List Nat)
    (fc : ForkChoice) (current_slot : Nat) (att : QueuedAttestation)
    (fc' : ForkChoice)
    (h : on_attestation balancesOf fc current_slot att = .ok fc') :
    fc'.fc_store = update_time balancesOf fc.fc_store current_slot := by
  unfold on_attestation at h
  dsimp only at h
  split at h
  · cases h
    rfl
  · split at h
    · cases h
    · cases h
      rfl

theorem apply_op_invariant (balancesOf : Nat → List Nat)
    (fc : ForkChoice) (op : Op)
    (hI : checkpoint_invariant fc.fc_store)
    (hwf : match op with
      | Op.block _ _ _ st => state_wf st
      | _ => True) :
    checkpoint_invariant (apply_op balancesOf fc op).fc_store := by
  cases op with
  | tick s =>
    exact on_tick_invariant balancesOf fc.fc_store s hI
  | block c blk r st =>
    dsimp only [apply_op, process_block]
    cases hob : on_block balancesOf fc c blk r st with
    | ok fc2 =>
      dsimp only
      exact on_block_ok_invariant balancesOf fc c blk r st fc2 hob hI hwf
    | error e =>
      dsimp only
      exact hI
  | attestation c a =>
    dsimp only [apply_op, process_indexed_attestation]
    cases hoa : on_attestation balancesOf fc c a with
    | ok fc2 =>
      dsimp only
      rw [on_attestation_ok_store balancesOf fc c a fc2 hoa]
      exact update_time_invariant balancesOf fc.fc_store c hI
    | error e =>
      dsimp only
      exact hI
  | head s =>
    exact update_time_invariant balancesOf fc.fc_store s hI

theorem apply_op_mono (balancesOf : Nat → List Nat)
    (fc : ForkChoice) (op : Op)
    (htick : match op with
      | Op.tick s => fc.fc_store.current_slot ≤ s
      | _ => True) :
    fc.fc_store.current_slot ≤
      (apply_op balancesOf fc op).fc_store.current_slot ∧
    fc.fc_store.finalized_checkpoint.epoch ≤
      (apply_op balancesOf fc op).fc_store.finalized_checkpoint.epoch := by
  cases op with
  | tick s =>
    constructor
    · show fc.fc_store.current_slot ≤
        (on_tick balancesOf fc.fc_store s).current_slot
      rw [on_tick_current_slot]
      exact htick
    · show fc.fc_store.finalized_checkpoint.epoch ≤
        (on_tick balancesOf fc.fc_store s).finalized_checkpoint.epoch
      rw [on_tick_finalized]
  | block c blk r st =>
    dsimp only [apply_op, process_block]
    cases hob : on_block balancesOf fc c blk r st with
    | ok fc2 =>
      dsimp only
      exact on_block_ok_mono balancesOf fc c blk r st fc2 hob
    | error e =>
      dsimp only
      exact ⟨Nat.le_refl _, Nat.le_refl _⟩
  | attestation c a =>
    dsimp only [apply_op, process_indexed_attestation]
    cases hoa : on_attestation balancesOf fc c a with
    | ok fc2 =>
      dsimp only
      rw [on_attestation_ok_store balancesOf fc c a fc2 hoa]
      constructor
      · exact update_time_slot_ge balancesOf fc.fc_store c
      · rw [update_time_finalized]
    | error e =>
      dsimp only
      exact ⟨Nat.le_refl _, Nat.le_refl _⟩
  | head s =>
    constructor
    · exact update_time_slot_ge balancesOf fc.fc_store s
    · show fc.fc_store.finalized_checkpoint.epoch ≤
        (update_time balancesOf fc.fc_store s).finalized_checkpoint.epoch
      rw [update_time_finalized]

theorem read_list_tokens_encode (l rest : List Nat) :
    read_list_tokens (l.length :: (l ++ rest)) = some (l, rest) := by
  simp only [read_list_tokens]
  rw [if_pos (by simp)]
  rw [List.take_left, List.drop_left]

theorem fc_store_from_to_bytes (s : ForkChoiceStore) :
    ForkChoiceStore.from_bytes s.to_bytes = some s := by
  unfold ForkChoiceStore.to_bytes ForkChoiceStore.from_bytes
  simp only [List.cons_append, List.nil_append, List.append_assoc]
  rw [read_list_tokens_encode]
  dsimp only
  rw [read_list_tokens_encode]

theorem read_nodes_encode (l : List ProtoNode) (rest : List Nat) :
    read_nodes l.length (cat_map encode_node l ++ rest) = some (l, rest) := by
  induction l with
  | nil => rfl
  | cons n ns ih =>
    show read_nodes (ns.length + 1)
      ((encode_node n ++ cat_map encode_node ns) ++ rest) = _
    rw [List.append_assoc]
    have he : encode_node n = [n.root, n.parent_root, n.slot, n.state_root,
        n.justified_epoch, n.finalized_epoch] := rfl
    rw [he]
    simp only [List.cons_append, List.nil_append]
    simp only [read_nodes]
    rw [ih]

theorem read_votes_encode (l : List (Nat × Nat × Nat)) (rest : List Nat) :
    read_votes l.length (cat_map encode_vote l ++ rest) = some (l, rest) := by
  induction l with
  | nil => rfl
  | cons v vs ih =>
    show read_votes (vs.length + 1)
      ((encode_vote v ++ cat_map encode_vote vs) ++ rest) = _
    rw [List.append_assoc]
    have he : encode_vote v = [v.1, v.2.1, v.2.2] := rfl
    rw [he]
    simp only [List.cons_append, List.nil_append]
    simp only [read_votes]
    rw [ih]

theorem proto_array_from_as_bytes (pa : ProtoArray) :
    ProtoArray.from_bytes pa.as_bytes = some pa := by
  unfold ProtoArray.as_bytes ProtoArray.from_bytes
  simp only [List.cons_append, List.nil_append, List.append_assoc]
  rw [read_nodes_encode]
  dsimp only
  have h2 := read_votes_encode pa.votes []
  rw [List.append_nil] at h2
  rw [h2]

theorem length_encodeLE (k : Nat) : ∀ n, (encodeLE k n).length = k := by
  induction k with
  | zero => intro n; rfl
  | succ k ih =>
    intro n
    show (encodeLE k (n / 256)).length + 1 = k + 1
    rw [ih]

theorem decodeLE_encodeLE_mod (k : Nat) :
    ∀ n, decodeLE (encodeLE k n) = n % 256 ^ k := by
  induction k with
  | zero => intro n; simp [encodeLE, decodeLE, Nat.mod_one]
  | succ k ih =>
    intro n
    show n % 256 + 256 * decodeLE (encodeLE k (n / 256)) = n % 256 ^ (k + 1)
    rw [ih (n / 256), pow_succ', Nat.mod_mul]

theorem decodeLE_encodeLE (k n : Nat) (h : n < 256 ^ k) :
    decodeLE (encodeLE k n) = n := by
  rw [decodeLE_encodeLE_mod, Nat.mod_eq_of_lt h]

theorem take_encodeLE (k n : Nat) (m : List Nat) :
    (encodeLE k n ++ m).take k = encodeLE k n :=
  List.take_left' (length_encodeLE k n)

theorem drop_encodeLE (k n : Nat) (m : List Nat) :
    (encodeLE k n ++ m).drop k = m :=
  List.drop_left' (length_encodeLE k n)

theorem le_length_encodeLE (k n : Nat) (m : List Nat) :
    k ≤ (encodeLE k n ++ m).length := by
  rw [List.length_append, length_encodeLE]
  exact Nat.le_add_right _ _

theorem read_chunks_encode (k : Nat) (l : List Nat) (rest : List Nat)
    (h : ∀ x ∈ l, x < 256 ^ k) :
    read_chunks k l.length (cat_map (encodeLE k) l ++ rest) =
      some (l, rest) := by
  induction l with
  | nil => rfl
  | cons x xs ih =>
    show read_chunks k (xs.length + 1)
      ((encodeLE k x ++ cat_map (encodeLE k) xs) ++ rest) = _
    rw [List.append_assoc]
    simp only [read_chunks]
    rw [if_pos (le_length_encodeLE k x _), drop_encodeLE,
      ih (fun y hy => h y (List.mem_cons_of_mem x hy)), take_encodeLE,
      decodeLE_encodeLE k x (h x (List.mem_cons_self x xs))]

theorem read_queued_attestation_encode (a : QueuedAttestation)
    (rest : List Nat) (h : a.ssz_valid) :
    read_queued_attestation (a.as_ssz_bytes ++ rest) = some (a, rest) := by
  obtain ⟨h1, h2, h3, h4, h5⟩ := h
  unfold QueuedAttestation.as_ssz_bytes read_queued_attestation
  simp only [List.append_assoc]
  rw [if_pos (le_length_encodeLE 8 a.slot _), take_encodeLE, drop_encodeLE,
    decodeLE_encodeLE 8 a.slot h1]
  rw [if_pos (le_length_encodeLE 4 _ _), take_encodeLE, drop_encodeLE,
    decodeLE_encodeLE 4 _ h2]
  rw [read_chunks_encode 8 a.attesting_indices _ h3]
  dsimp only
  rw [if_pos (le_length_encodeLE 32 a.block_root _), take_encodeLE,
    drop_encodeLE, decodeLE_encodeLE 32 a.block_root h4]
  rw [if_pos (le_length_encodeLE 8 a.target_epoch _), take_encodeLE,
    drop_encodeLE, decodeLE_encodeLE 8 a.target_epoch h5]

theorem read_queued_attestations_encode (l : List QueuedAttestation)
    (rest : List Nat) (h : ∀ a ∈ l, a.ssz_valid) :
    read_queued_attestations l.length
      (cat_map QueuedAttestation.as_ssz_bytes l ++ rest) = some (l, rest) := by
  induction l with
  | nil => rfl
  | cons a as ih =>
    show read_queued_attestations (as.length + 1)
      ((a.as_ssz_bytes ++ cat_map QueuedAttestation.as_ssz_bytes as) ++
        rest) = _
    rw [List.append_assoc]
    simp only [read_queued_attestations]
    rw [read_queued_attestation_encode a _ (h a (List.mem_cons_self a as))]
    dsimp only
    rw [ih (fun y hy => h y (List.mem_cons_of_mem a hy))]

theorem decode_encode_qa_list (l : List QueuedAttestation)
    (hlen : l.length < 256 ^ 4) (h : ∀ a ∈ l, a.ssz_valid) :
    decode_qa_list (encode_qa_list l) = some l := by
  unfold encode_qa_list decode_qa_list
  rw [if_pos (le_length_encodeLE 4 _ _), take_encodeLE, drop_encodeLE,
    decodeLE_encodeLE 4 _ hlen]
  have hr := read_queued_attestations_encode l [] h
  rw [List.append_nil] at hr
  rw [hr]

theorem persisted_from_to_ssz (p : PersistedForkChoice)
    (h : p.ssz_valid) :
    PersistedForkChoice.from_ssz_bytes p.as_ssz_bytes = some p := by
  obtain ⟨f1, f2, qs, g⟩ := p
  obtain ⟨hg, hoff, hcnt, hqs⟩ := h
  dsimp only at hg hoff hcnt hqs
  unfold PersistedForkChoice.as_ssz_bytes PersistedForkChoice.from_ssz_bytes
  dsimp only
  generalize hB : encodeLE 4 44 ++
    (encodeLE 4 (44 + f1.length) ++
      (encodeLE 4 (44 + f1.length + f2.length) ++
        (encodeLE 32 g ++ (f1 ++ (f2 ++ encode_qa_list qs))))) = B
  have hBlen : B.length =
      44 + f1.length + f2.length + (encode_qa_list qs).length := by
    rw [← hB]
    simp only [List.length_append, length_encodeLE]
    omega
  have h1 : B.drop 4 = encodeLE 4 (44 + f1.length) ++
      (encodeLE 4 (44 + f1.length + f2.length) ++
        (encodeLE 32 g ++ (f1 ++ (f2 ++ encode_qa_list qs)))) := by
    rw [← hB, drop_encodeLE]
  have h2 : B.drop 8 = encodeLE 4 (44 + f1.length + f2.length) ++
      (encodeLE 32 g ++ (f1 ++ (f2 ++ encode_qa_list qs))) := by
    rw [← List.drop_drop 4 4 B, h1, drop_encodeLE]
  have h3 : B.drop 12 = encodeLE 32 g ++ (f1 ++ (f2 ++ encode_qa_list qs)) := by
    rw [← List.drop_drop 4 8 B, h2, drop_encodeLE]
  have h4 : B.drop 44 = f1 ++ (f2 ++ encode_qa_list qs) := by
    rw [← List.drop_drop 32 12 B, h3, drop_encodeLE]
  have hv1 : decodeLE (B.take 4) = 44 := by
    rw [← hB, take_encodeLE, decodeLE_encodeLE 4 44 (by norm_num)]
  have hv2 : decodeLE ((B.drop 4).take 4) = 44 + f1.length := by
    rw [h1, take_encodeLE, decodeLE_encodeLE 4 _ (by omega)]
  have hv3 : decodeLE ((B.drop 8).take 4) =
      44 + f1.length + f2.length := by
    rw [h2, take_encodeLE, decodeLE_encodeLE 4 _ (by omega)]
  have hv4 : decodeLE ((B.drop 12).take 32) = g := by
    rw [h3, take_encodeLE, decodeLE_encodeLE 32 g hg]
  rw [if_pos (by omega : (44:Nat) ≤ B.length)]
  rw [hv1, hv2, hv3, hv4]
  rw [if_pos (⟨rfl, by omega, by omega, by omega⟩ :
    (44:Nat) = 44 ∧ 44 ≤ 44 + f1.length ∧
      44 + f1.length ≤ 44 + f1.length + f2.length ∧
      44 + f1.length + f2.length ≤ B.length)]
  have h5 : B.drop (44 + f1.length) = f2 ++ encode_qa_list qs := by
    rw [← List.drop_drop f1.length 44 B, h4, List.drop_left]
  have h6 : B.drop (44 + f1.length + f2.length) = encode_qa_list qs := by
    rw [← List.drop_drop f2.length (44 + f1.length) B, h5, List.drop_left]
  rw [h6, decode_encode_qa_list qs hcnt hqs]
  dsimp only
  rw [h4, h5]
  rw [show 44 + f1.length - 44 = f1.length by omega]
  rw [show 44 + f1.length + f2.length - (44 + f1.length) = f2.length
    by omega]
  rw [List.take_left, List.take_left]

/-- C7: a slot is inside the safe-to-update window — the gate
`compute_slots_since_epoch_start(slot) < SAFE_SLOTS_TO_UPDATE_JUSTIFIED`
used by the justified-update rule — exactly when
`slot % slots_per_epoch < SAFE_SLOTS_TO_UPDATE_JUSTIFIED` (the
`is_safe_to_update` helper of the tests); in particular a slot with
`slot % slots_per_epoch = SAFE_SLOTS_TO_UPDATE_JUSTIFIED` is outside
the window. -/
theorem c7_safe_to_update_window (s : Nat) :
    (is_safe_to_update s = true ↔
      compute_slots_since_epoch_start s < SAFE_SLOTS_TO_UPDATE_JUSTIFIED) ∧
    (is_safe_to_update s = true ↔
      s % slots_per_epoch < SAFE_SLOTS_TO_UPDATE_JUSTIFIED) ∧
    (s % slots_per_epoch = SAFE_SLOTS_TO_UPDATE_JUSTIFIED →
      is_safe_to_update s = false ∧
      ¬ compute_slots_since_epoch_start s <
          SAFE_SLOTS_TO_UPDATE_JUSTIFIED) := by
  refine ⟨?_, ?_, ?_⟩
  · rw [compute_slots_since_epoch_start_eq_mod]
    simp [is_safe_to_update]
  · simp [is_safe_to_update]
  · intro h
    rw [compute_slots_since_epoch_start_eq_mod]
    constructor
    · simp [is_safe_to_update, h]
    · rw [h]
      simp

/-- C7 witness: the boundary slot 8 is outside the safe window. -/
theorem c7_safe_to_update_window_witness :
    is_safe_to_update 8 = false ∧
    ¬ compute_slots_since_epoch_start 8 < SAFE_SLOTS_TO_UPDATE_JUSTIFIED :=
  (c7_safe_to_update_window 8).2.2 (by decide)

/-- C2: for every `on_tick(slot)` call with `slot ≥ current_slot`, the
store's `current_slot` becomes `slot`, and the justified checkpoint is
set to the best-justified checkpoint (with the justified balances
recomputed from the state rooted at the new justified checkpoint)
exactly when `slot` is strictly greater than the previous slot, `slot`
is the first slot of an epoch, and the best-justified epoch exceeds the
justified epoch; in every other case the justified checkpoint and
balances stay as they were. -/
theorem c2_on_tick_promotion (balancesOf : Nat → List Nat)
    (store : ForkChoiceStore) (slot : Nat)
    (_h : store.current_slot ≤ slot) :
    (on_tick balancesOf store slot).current_slot = slot ∧
    (on_tick balancesOf store slot).justified_checkpoint =
      (if slot > store.current_slot ∧ slot % slots_per_epoch = 0 ∧
          store.best_justified_checkpoint.epoch >
            store.justified_checkpoint.epoch then
        store.best_justified_checkpoint
      else store.justified_checkpoint) ∧
    (on_tick balancesOf store slot).justified_balances =
      (if slot > store.current_slot ∧ slot % slots_per_epoch = 0 ∧
          store.best_justified_checkpoint.epoch >
            store.justified_checkpoint.epoch then
        balancesOf store.best_justified_checkpoint.root
      else store.justified_balances) := by
  by_cases hc : slot > store.current_slot ∧ slot % slots_per_epoch = 0 ∧
      store.best_justified_checkpoint.epoch >
        store.justified_checkpoint.epoch
  · simp only [on_tick_eq, if_pos hc]
    exact ⟨trivial, trivial, trivial⟩
  · simp only [on_tick_eq, if_neg hc]
    exact ⟨trivial, trivial, trivial⟩

/-- C2 witness: ticking the sample store to slot 32 (an epoch boundary
with best-justified ahead of justified) promotes the checkpoint. -/
theorem c2_on_tick_promotion_witness :
    sample_store.current_slot ≤ 32 ∧
    ((on_tick sample_bal sample_store 32).current_slot = 32 ∧
     (on_tick sample_bal sample_store 32).justified_checkpoint =
       (if 32 > sample_store.current_slot ∧ 32 % slots_per_epoch = 0 ∧
           sample_store.best_justified_checkpoint.epoch >
             sample_store.justified_checkpoint.epoch then
         sample_store.best_justified_checkpoint
       else sample_store.justified_checkpoint) ∧
     (on_tick sample_bal sample_store 32).justified_balances =
       (if 32 > sample_store.current_slot ∧ 32 % slots_per_epoch = 0 ∧
           sample_store.best_justified_checkpoint.epoch >
             sample_store.justified_checkpoint.epoch then
         sample_bal sample_store.best_justified_checkpoint.root
       else sample_store.justified_balances)) :=
  ⟨by decide, c2_on_tick_promotion sample_bal sample_store 32 (by decide)⟩

/-- C10: an `on_tick(slot)` call whose slot is not strictly beyond the
previous slot, or is not the first slot of an epoch, succeeds and
modifies only `current_slot`: every other store field — in particular
the justified, best-justified and finalized checkpoints — is
unchanged. -/
theorem c10_on_tick_frame (balancesOf : Nat → List Nat)
    (store : ForkChoiceStore) (slot : Nat)
    (h : slot ≤ store.current_slot ∨
      compute_slots_since_epoch_start slot ≠ 0) :
    on_tick balancesOf store slot = { store with current_slot := slot } := by
  rw [on_tick_eq, if_neg]
  intro hc
  rw [compute_slots_since_epoch_start_eq_mod] at h
  rcases h with h | h
  · omega
  · exact h hc.2.1

/-- C10 witness: ticking to slot 33 (not an epoch boundary) only moves
the clock. -/
theorem c10_on_tick_frame_witness :
    ((33 : Nat) ≤ sample_store.current_slot ∨
      compute_slots_since_epoch_start 33 ≠ 0) ∧
    on_tick sample_bal sample_store 33 =
      { sample_store with current_slot := 33 } :=
  ⟨by right; decide,
    c10_on_tick_frame sample_bal sample_store 33 (by right; decide)⟩

/-- C9: `to_persisted` only reads: the state after the call equals the
state before it in every component, and the snapshot is assembled from
those reads. -/
theorem c9_to_persisted_frame (fc : ForkChoice) :
    (to_persisted_call fc).2.fc_store = fc.fc_store ∧
    (to_persisted_call fc).2.proto_array = fc.proto_array ∧
    (to_persisted_call fc).2.queued_attestations =
      fc.queued_attestations ∧
    (to_persisted_call fc).2.genesis_block_root = fc.genesis_block_root ∧
    (to_persisted_call fc).1 = to_persisted fc :=
  ⟨rfl, rfl, rfl, rfl, rfl⟩

/-- C6: admission is atomic — whenever `process_block` or
`process_indexed_attestation` reports an error, the fork-choice state
returned by the call equals the state before it; no partial insertion
survives. -/
theorem c6_admission_atomic (balancesOf : Nat → List Nat) :
    (∀ (fc : ForkChoice) (c : Nat) (b : ProtoNode) (r : Nat)
        (st : BeaconState) (e : ForkChoiceError),
      (process_block balancesOf fc c b r st).2 = some e →
      (process_block balancesOf fc c b r st).1 = fc) ∧
    (∀ (fc : ForkChoice) (c : Nat) (a : QueuedAttestation)
        (e : ForkChoiceError),
      (process_indexed_attestation balancesOf fc c a).2 = some e →
      (process_indexed_attestation balancesOf fc c a).1 = fc) := by
  constructor
  · intro fc c b r st e h
    unfold process_block at h ⊢
    cases hob : on_block balancesOf fc c b r st with
    | ok f =>
      rw [hob] at h
      cases h
    | error e2 =>
      rfl
  · intro fc c a e h
    unfold process_indexed_attestation at h ⊢
    cases hoa : on_attestation balancesOf fc c a with
    | ok f =>
      rw [hoa] at h
      cases h
    | error e2 =>
      rfl

/-- C6 witness: a future-slot block and an unknown-root attestation are
both rejected and leave the sample state untouched. -/
theorem c6_admission_atomic_witness :
    ((process_block sample_bal sample_fc 10 sample_future_block 20
        sample_state).2 =
      some (.invalidBlock (.futureSlot 40 10)) ∧
     (process_block sample_bal sample_fc 10 sample_future_block 20
        sample_state).1 = sample_fc) ∧
    ((process_indexed_attestation sample_bal sample_fc 10
        sample_bad_att).2 =
      some (.invalidAttestation (.unknownHeadBlock 7)) ∧
     (process_indexed_attestation sample_bal sample_fc 10
        sample_bad_att).1 = sample_fc) :=
  ⟨⟨rfl, (c6_admission_atomic sample_bal).1 sample_fc 10
      sample_future_block 20 sample_state
      (.invalidBlock (.futureSlot 40 10)) rfl⟩,
   ⟨rfl, (c6_admission_atomic sample_bal).2 sample_fc 10 sample_bad_att
      (.invalidAttestation (.unknownHeadBlock 7)) rfl⟩⟩

/-- C1 counterexample: in the scenario of
`justified_checkpoint_updates_with_non_descendent_inside_safe_slots_without_finality`
(`src/consensus/fork_choice/tests/tests.rs`, lines 228-254) — the
incoming justified epoch 3 exceeds the stored epoch 2, the finalized
epoch does not advance, the current slot 96 is inside the safe window,
and the new justified root 150 does **not** have the stored justified
root 200 as ancestor (its ancestor at slot 64, the start slot of the
stored justified epoch, is 42; at slot 0 it is the genesis root 100) —
`on_block` **does** promote the justified checkpoint to `(3, 150)`.
The claim predicts no promotion here (neither of its two permitted
conditions holds), so the claim as stated is false at this input. -/
theorem c1_counterexample :
    (on_block cex_balances cex_fc 96 cex_block 151 cex_state).map
      (fun fc => fc.fc_store.justified_checkpoint) = .ok ⟨3, 150⟩ ∧
    cex_fc.fc_store.justified_checkpoint = ⟨2, 200⟩ ∧
    cex_state.current_justified_checkpoint.epoch >
      cex_fc.fc_store.justified_checkpoint.epoch ∧
    ¬ cex_state.finalized_checkpoint.epoch >
        cex_fc.fc_store.finalized_checkpoint.epoch ∧
    compute_slots_since_epoch_start 96 < SAFE_SLOTS_TO_UPDATE_JUSTIFIED ∧
    cex_state.ancestor_at cex_state.current_justified_checkpoint.root
        (start_slot cex_fc.fc_store.justified_checkpoint.epoch) =
      some 42 ∧
    cex_state.ancestor_at cex_state.current_justified_checkpoint.root 0 =
      some 100 ∧
    (42 : Nat) ≠ cex_fc.fc_store.justified_checkpoint.root ∧
    (100 : Nat) ≠ cex_fc.fc_store.justified_checkpoint.root :=
  ⟨rfl, rfl, by decide, by decide, by decide, by decide, by decide,
    by decide, by decide⟩

/-- C1 (amended): when `on_block` succeeds, write `U` for the
time-updated store.  The effective justified checkpoint is promoted to
the state's current-justified checkpoint exactly when the state's
finalized epoch exceeds `U`'s (finality trumps the safety rule), or the
state's justified epoch exceeds `U`'s AND (the current slot lies in the
first `SAFE_SLOTS_TO_UPDATE_JUSTIFIED` slots of its epoch OR the new
justified root's ancestor at the start slot of `U`'s justified epoch
equals `U`'s justified root); in every other case the justified
checkpoint is unchanged and only the best-justified checkpoint may have
moved (it is raised exactly when the state's justified epoch exceeds
both stored epochs). -/
theorem c1_justified_update_amended (balancesOf : Nat → List Nat)
    (fc : ForkChoice) (current_slot : Nat) (block : ProtoNode)
    (block_root : Nat) (state : BeaconState) (fc' : ForkChoice)
    (h : on_block balancesOf fc current_slot block block_root state =
      .ok fc') :
    fc'.fc_store.justified_checkpoint =
      (if state.finalized_checkpoint.epoch >
          (update_time balancesOf fc.fc_store
            current_slot).finalized_checkpoint.epoch then
        state.current_justified_checkpoint
      else if state.current_justified_checkpoint.epoch >
            (update_time balancesOf fc.fc_store
              current_slot).justified_checkpoint.epoch ∧
          safe_or_descendant
            (update_time balancesOf fc.fc_store current_slot) state then
        state.current_justified_checkpoint
      else
        (update_time balancesOf fc.fc_store
          current_slot).justified_checkpoint) ∧
    fc'.fc_store.best_justified_checkpoint =
      (if state.current_justified_checkpoint.epoch >
            (update_time balancesOf fc.fc_store
              current_slot).justified_checkpoint.epoch ∧
          state.current_justified_checkpoint.epoch >
            (update_time balancesOf fc.fc_store
              current_slot).best_justified_checkpoint.epoch then
        state.current_justified_checkpoint
      else
        (update_time balancesOf fc.fc_store
          current_slot).best_justified_checkpoint) := by
  obtain ⟨s4, hupd, hfc⟩ :=
    on_block_ok_store balancesOf fc current_slot block block_root state
      fc' h
  obtain ⟨hslot, hfin, hbest, hjust⟩ :=
    update_justified_on_block_ok balancesOf _ state s4 hupd
  rw [hfc, update_finalized_on_block_eq]
  by_cases hf : state.finalized_checkpoint.epoch >
      s4.finalized_checkpoint.epoch
  · rw [if_pos hf]
    have hf2 : state.finalized_checkpoint.epoch >
        (update_time balancesOf fc.fc_store
          current_slot).finalized_checkpoint.epoch := by
      rw [← hfin]
      exact hf
    constructor
    · show state.current_justified_checkpoint = _
      rw [if_pos hf2]
    · show s4.best_justified_checkpoint = _
      exact hbest
  · rw [if_neg hf]
    have hf2 : ¬ state.finalized_checkpoint.epoch >
        (update_time balancesOf fc.fc_store
          current_slot).finalized_checkpoint.epoch := by
      rw [← hfin]
      exact hf
    refine ⟨?_, hbest⟩
    rw [if_neg hf2]
    exact hjust

/-- C1 (amended) witness: the concrete scenario of the counterexample
instantiates the amended characterization. -/
theorem c1_justified_update_amended_witness :
    cex_result.fc_store.justified_checkpoint =
      (if cex_state.finalized_checkpoint.epoch >
          (update_time cex_balances cex_fc.fc_store
            96).finalized_checkpoint.epoch then
        cex_state.current_justified_checkpoint
      else if cex_state.current_justified_checkpoint.epoch >
            (update_time cex_balances cex_fc.fc_store
              96).justified_checkpoint.epoch ∧
          safe_or_descendant
            (update_time cex_balances cex_fc.fc_store 96) cex_state then
        cex_state.current_justified_checkpoint
      else
        (update_time cex_balances cex_fc.fc_store
          96).justified_checkpoint) ∧
    cex_result.fc_store.best_justified_checkpoint =
      (if cex_state.current_justified_checkpoint.epoch >
            (update_time cex_balances cex_fc.fc_store
              96).justified_checkpoint.epoch ∧
          cex_state.current_justified_checkpoint.epoch >
            (update_time cex_balances cex_fc.fc_store
              96).best_justified_checkpoint.epoch then
        cex_state.current_justified_checkpoint
      else
        (update_time cex_balances cex_fc.fc_store
          96).best_justified_checkpoint) :=
  c1_justified_update_amended cex_balances cex_fc 96 cex_block 151
    cex_state cex_result rfl

/-- C4: invariant I1 — finalized epoch at most justified epoch at most
best-justified epoch — is preserved by every sequence of public
operations whose block operations carry well-formed states (a beacon
state of a valid block never finalizes beyond its own justified
checkpoint); operations that return an error leave the state unchanged,
so the invariant holds after every sequence whose calls succeed. -/
theorem c4_invariant_i1 (balancesOf : Nat → List Nat) :
    ∀ (ops : List Op) (fc : ForkChoice),
      checkpoint_invariant fc.fc_store → ops_wf ops →
      checkpoint_invariant (run_ops balancesOf fc ops).fc_store := by
  intro ops
  induction ops with
  | nil =>
    intro fc hI _
    exact hI
  | cons op rest ih =>
    intro fc hI hwf
    have hop := hwf op (List.mem_cons_self op rest)
    have hrest : ops_wf rest := fun o ho =>
      hwf o (List.mem_cons_of_mem op ho)
    exact ih (apply_op balancesOf fc op)
      (apply_op_invariant balancesOf fc op hI hop) hrest

/-- C4 witness: the invariant survives a tick to an epoch boundary and a
head query on the sample state. -/
theorem c4_invariant_i1_witness :
    checkpoint_invariant sample_fc.fc_store ∧
    ops_wf [Op.tick 32, Op.head 40] ∧
    checkpoint_invariant
      (run_ops sample_bal sample_fc [Op.tick 32, Op.head 40]).fc_store := by
  have hwf : ops_wf [Op.tick 32, Op.head 40] := by
    intro op hop
    rcases List.mem_cons.mp hop with rfl | hop2
    · trivial
    · rcases List.mem_cons.mp hop2 with rfl | hop3
      · trivial
      · cases hop3
  exact ⟨by decide, hwf,
    c4_invariant_i1 sample_bal [Op.tick 32, Op.head 40] sample_fc
      (by decide) hwf⟩

/-- C5: across every sequence of public operations whose raw ticks
respect the documented non-decreasing slot-clock precondition, the
store's `current_slot` and the finalized epoch never decrease. -/
theorem c5_monotonicity (balancesOf : Nat → List Nat) :
    ∀ (ops : List Op) (fc : ForkChoice),
      ticks_respect balancesOf fc ops →
      fc.fc_store.current_slot ≤
        (run_ops balancesOf fc ops).fc_store.current_slot ∧
      fc.fc_store.finalized_checkpoint.epoch ≤
        (run_ops balancesOf fc ops).fc_store.finalized_checkpoint.epoch := by
  intro ops
  induction ops with
  | nil =>
    intro fc _
    exact ⟨Nat.le_refl _, Nat.le_refl _⟩
  | cons op rest ih =>
    intro fc ht
    obtain ⟨hop, hrest⟩ := ht
    have hstep := apply_op_mono balancesOf fc op hop
    have htail := ih (apply_op balancesOf fc op) hrest
    exact ⟨hstep.1.trans htail.1, hstep.2.trans htail.2⟩

/-- C5 witness: slots and finalized epochs are monotone over a concrete
tick-block-head sequence on the sample state. -/
theorem c5_monotonicity_witness :
    ticks_respect sample_bal sample_fc [Op.tick 32, Op.head 40] ∧
    (sample_fc.fc_store.current_slot ≤
      (run_ops sample_bal sample_fc
        [Op.tick 32, Op.head 40]).fc_store.current_slot ∧
    sample_fc.fc_store.finalized_checkpoint.epoch ≤
      (run_ops sample_bal sample_fc
        [Op.tick 32, Op.head 40]).fc_store.finalized_checkpoint.epoch) :=
  ⟨⟨by decide, trivial, trivial⟩,
    c5_monotonicity sample_bal [Op.tick 32, Op.head 40] sample_fc
      ⟨by decide, trivial, trivial⟩⟩

/-- C3: `from_persisted (to_persisted fc)` succeeds and the recovered
object equals `fc` — in particular under the backend's structural
equality on Store bytes, ProtoArray bytes, queued attestations and
genesis block root. -/
theorem c3_persistence_round_trip (fc : ForkChoice) :
    from_persisted (to_persisted fc) = Except.ok fc ∧
    backend_eq fc fc := by
  constructor
  · unfold from_persisted to_persisted
    dsimp only
    rw [fc_store_from_to_bytes]
    dsimp only
    rw [proto_array_from_as_bytes]
    rfl
  · exact ⟨rfl, rfl, rfl, rfl⟩

/-- C8: the persisted snapshot is the SimpleSerialize container of
exactly the four fields in declaration order — Store bytes, ProtoArray
bytes, queued attestations, 32-byte genesis block root: the byte string
is the fixed part (three 4-byte offsets and the 32-byte genesis root)
followed by the three variable fields in order, the decoder recovers
all four fields from it, and the item lives in the dedicated
`ForkChoice` store column. -/
theorem c8_persisted_ssz_layout (p : PersistedForkChoice)
    (h : p.ssz_valid) :
    PersistedForkChoice.from_store_bytes p.as_store_bytes = some p ∧
    p.as_store_bytes =
      encodeLE 4 44 ++
        (encodeLE 4 (44 + p.fc_store_bytes.length) ++
          (encodeLE 4 (44 + p.fc_store_bytes.length +
              p.proto_array_bytes.length) ++
            (encodeLE 32 p.genesis_block_root ++
              (p.fc_store_bytes ++
                (p.proto_array_bytes ++
                  encode_qa_list p.queued_attestations))))) ∧
    (encodeLE 32 p.genesis_block_root).length = 32 ∧
    PersistedForkChoice.db_column = DBColumn.ForkChoice :=
  ⟨persisted_from_to_ssz p h, rfl, length_encodeLE 32 _, rfl⟩

/-- C8 witness: the concrete sample snapshot round-trips through its
SimpleSerialize bytes and sits in the `ForkChoice` column. -/
theorem c8_persisted_ssz_layout_witness :
    sample_persisted.ssz_valid ∧
    (PersistedForkChoice.from_store_bytes sample_persisted.as_store_bytes =
        some sample_persisted ∧
      sample_persisted.as_store_bytes =
        encodeLE 4 44 ++
          (encodeLE 4 (44 + sample_persisted.fc_store_bytes.length) ++
            (encodeLE 4 (44 + sample_persisted.fc_store_bytes.length +
                sample_persisted.proto_array_bytes.length) ++
              (encodeLE 32 sample_persisted.genesis_block_root ++
                (sample_persisted.fc_store_bytes ++
                  (sample_persisted.proto_array_bytes ++
                    encode_qa_list
                      sample_persisted.queued_attestations))))) ∧
      (encodeLE 32 sample_persisted.genesis_block_root).length = 32 ∧
      PersistedForkChoice.db_column = DBColumn.ForkChoice) :=
  ⟨by decide, c8_persisted_ssz_layout sample_persisted (by decide)⟩
